import Mathlib

/-!
# VulnGraph orchestration engine: formal model

Shallow embedding of the plan/step data model, the `step_results`
reducer (`src/graph/state.py`), and the graph nodes of
`src/graph/nodes.py` (`WorkerTeamNode`, `PlanRefineNode`,
`UserFeedbackNode`, `PlannerNode`), with theorems settling the
specification claims about them.
-/

namespace VulnGraph

/-- Modelled from the spec: the repository imports `Step` from
`schemas/plans.py`, which is not among the provided sources. Per §3 of
the spec a Step carries an identity, a step kind tag, a non-negative
`stage` wave number, a `depends_on` set of step ids, a `target`, and
free-form title/description. Field names follow their uses in
`graph/nodes.py` (`id`, `step_type`, `title`, `description`, `target`,
`stage`, `depends_on`). -/
structure Step where
  id : String
  step_type : String
  title : String
  description : String
  target : Option String
  stage : Nat
  depends_on : List String
deriving Repr, DecidableEq

/-- Modelled from the spec: `Plan` from the missing `schemas/plans.py`;
per §3 it is an ordered list of Steps plus the flags
`has_enough_context` and `finish_plan`, as used in `graph/nodes.py`. -/
structure Plan where
  steps : List Step
  has_enough_context : Bool
  finish_plan : Bool
deriving Repr, DecidableEq

/-- A step-result payload, as inspected by `PlanRefineNode`
(`graph/nodes.py` lines 104-106): a Python dict is modelled by its
`"type"` entry (absent ↦ `none`) and its `"cve_ids"` entry
(absent ↦ `[]`, matching `result.get("cve_ids", [])`); any non-dict
value is `other`. -/
inductive ResultPayload where
  | dict (rtype : Option String) (cve_ids : List String)
  | other
deriving Repr, DecidableEq

/-- A Python `dict[str, α]`, modelled as an insertion-ordered
association list. -/
abbrev Dict (α : Type) : Type := List (String × α)

namespace Dict

/-- `d.get(k)` / `k in d`: lookup by first matching key. -/
def get? {α : Type} (d : Dict α) (k : String) : Option α :=
  (List.find? (fun p => p.1 == k) d).map Prod.snd

/-- `k in d` as a Bool. -/
def hasKey {α : Type} (d : Dict α) (k : String) : Bool :=
  (get? d k).isSome

/-- Python dict union `a | b` (the `operator.or_` reducer declared for
`step_results` in `graph/state.py` line 20): keys of `a` keep their
position but take `b`'s value when `b` also binds them, and keys
exclusive to `b` are appended. -/
def union {α : Type} (a b : Dict α) : Dict α :=
  List.map (fun p => match get? b p.1 with
    | some v => (p.1, v)
    | none => p) a
  ++ List.filter (fun p => !hasKey a p.1) b

theorem get?_nil {α : Type} (k : String) : get? ([] : Dict α) k = none := rfl

theorem get?_cons {α : Type} (p : String × α) (d : Dict α) (k : String) :
    get? (p :: d) k = if p.1 == k then some p.2 else get? d k := by
  simp only [get?, List.find?]
  cases h : (p.1 == k) <;> simp [h]

theorem get?_append {α : Type} (a b : Dict α) (k : String) :
    get? (a ++ b) k = (get? a k).orElse (fun _ => get? b k) := by
  induction a with
  | nil => simp [get?_nil, Option.orElse]
  | cons p rest ih =>
    rw [List.cons_append, get?_cons, get?_cons]
    cases h : (p.1 == k) <;> simp [h, ih, Option.orElse]

theorem get?_map_override {α : Type} (a b : Dict α) (k : String) :
    get? (List.map (fun p => match get? b p.1 with
      | some v => (p.1, v)
      | none => p) a) k
    = match get? a k with
      | some _ => (get? b k).orElse (fun _ => get? a k)
      | none => none := by
  induction a with
  | nil => simp [get?_nil]
  | cons p rest ih =>
    rw [List.map_cons, get?_cons]
    cases hpk : (p.1 == k)
    · cases hb : get? b p.1 <;>
        simp only [hb] <;> rw [get?_cons] <;> simp [hpk, ih]
    · have hk : p.1 = k := by exact eq_of_beq hpk
      subst hk
      cases hb : get? b p.1 <;>
        simp only [hb] <;> rw [get?_cons] <;> simp [hb, Option.orElse]

theorem get?_filter_not_in {α : Type} (a b : Dict α) (k : String)
    (h : get? a k = none) :
    get? (List.filter (fun p => !hasKey a p.1) b) k = get? b k := by
  induction b with
  | nil => simp [get?_nil]
  | cons p rest ih =>
    rw [List.filter_cons]
    by_cases hpk : p.1 = k
    · subst hpk
      have hkf : hasKey a p.1 = false := by simp [hasKey, h]
      simp [hkf, get?_cons]
    · have hb : (p.1 == k) = false := by simp [hpk]
      cases hcond : hasKey a p.1 <;> simp [hcond, get?_cons, hb, ih]

/-- Lookup in the dict union `a | b`: `b`'s binding wins where present,
otherwise `a`'s binding is kept. -/
theorem get?_union {α : Type} (a b : Dict α) (k : String) :
    get? (union a b) k
    = ((get? b k).orElse (fun _ => get? a k)) := by
  unfold union
  rw [get?_append, get?_map_override]
  cases ha : get? a k
  · rw [get?_filter_not_in a b k ha]
    cases hb : get? b k <;> simp [Option.orElse]
  · cases hb : get? b k <;> simp [Option.orElse]

end Dict

/-- `STEP_CONFIG` (`graph/nodes.py` lines 23-28) read through
`STEP_CONFIG.get(step_type, {"parallel": False})["parallel"]`
(line 399): asset_analysis and vuln_detail are parallel, vuln_discovery
and reporting serial, unknown kinds default to serial. -/
def stepParallel (step_type : String) : Bool :=
  if step_type = "asset_analysis" then true
  else if step_type = "vuln_detail" then true
  else if step_type = "vuln_discovery" then false
  else if step_type = "reporting" then false
  else false

/-- `_node_for_step_type` (`graph/nodes.py` lines 286-294). -/
def node_for_step_type (step_type : String) : String :=
  if step_type = "asset_analysis" then "AssetsAnalzerNode"
  else if step_type = "vuln_discovery" then "VulnDiscoveryNode"
  else if step_type = "vuln_detail" then "VulnDetailNode"
  else if step_type = "reporting" then "ReporterNode"
  else "WorkerTeamNode"

/-- `_deps_done` (`graph/nodes.py` lines 274-284): every id in
`depends_on` must already be a key of `step_results` (the early return
on an empty `depends_on` coincides with `List.all []`). -/
def deps_done (step : Step) (step_results : Dict ResultPayload) : Bool :=
  step.depends_on.all (fun dep_id => Dict.hasKey step_results dep_id)

/-- A `Send(node, {"step_id": ...})` dispatch payload
(`graph/nodes.py` lines 403, 417). -/
structure Send where
  node : String
  step_id : String
deriving Repr, DecidableEq

/-- A scheduler outcome: `Command(goto=...)` or a list of `Send`s. -/
inductive SchedDecision where
  | goto (node : String)
  | dispatch (jobs : List Send)
deriving Repr, DecidableEq

/-- The refinement candidates of `WorkerTeamNode`
(`graph/nodes.py` lines 356-362): finished discovery steps that no step
of the plan depends on. -/
def candidatesForRefine (plan : Plan) (step_results : Dict ResultPayload) :
    List Step :=
  plan.steps.filter (fun step =>
    step.step_type == "vuln_discovery"
    && Dict.hasKey step_results step.id
    && !(plan.steps.any (fun s => s.depends_on.contains step.id)))

/-- `pending_steps` (`graph/nodes.py` line 368): steps with no result. -/
def pendingSteps (plan : Plan) (step_results : Dict ResultPayload) :
    List Step :=
  plan.steps.filter (fun s => !Dict.hasKey step_results s.id)

/-- `runnable` (`graph/nodes.py` line 375): pending steps whose
dependencies are all met. -/
def runnableSteps (plan : Plan) (step_results : Dict ResultPayload) :
    List Step :=
  (pendingSteps plan step_results).filter (fun s => deps_done s step_results)

/-- `min(s.stage for s in runnable)` (`graph/nodes.py` line 391);
defined as 0 on the empty list, which the scheduler never consults. -/
def minStage : List Step → Nat
  | [] => 0
  | s :: rest => rest.foldl (fun m t => min m t.stage) s.stage

/-- `runnable_at_stage` (`graph/nodes.py` line 392). -/
def runnableAtStage (plan : Plan) (step_results : Dict ResultPayload) :
    List Step :=
  let runnable := runnableSteps plan step_results
  runnable.filter (fun s => s.stage == minStage runnable)

/-- The dispatch loop of `WorkerTeamNode` (`graph/nodes.py` lines
395-407): accumulate a `Send` per parallel-policy step, and remember
the first serial-policy step encountered. -/
def dispatchLoop : List Step → List Send → Option Step →
    (List Send × Option Step)
  | [], jobs, serial_step => (jobs, serial_step)
  | step :: rest, jobs, serial_step =>
    if stepParallel step.step_type then
      dispatchLoop rest
        (jobs ++ [⟨node_for_step_type step.step_type, step.id⟩]) serial_step
    else
      dispatchLoop rest jobs
        (match serial_step with
         | none => some step
         | some s => some s)

/-- `WorkerTeamNode` (`graph/nodes.py` lines 296-419). -/
def WorkerTeamNode (plan : Option Plan) (step_results : Dict ResultPayload) :
    SchedDecision :=
  match plan with
  | none => .goto "PlannerNode"
  | some plan =>
    if plan.steps.isEmpty then .goto "PlannerNode"
    else if !(candidatesForRefine plan step_results).isEmpty then
      .goto "PlanRefineNode"
    else if (pendingSteps plan step_results).isEmpty then
      .goto "TriageNode"
    else if (runnableSteps plan step_results).isEmpty then
      -- no runnable steps while some are pending: fail-safe path
      .goto "TriageNode"
    else
      let (jobs, serial_step) :=
        dispatchLoop (runnableAtStage plan step_results) [] none
      if !jobs.isEmpty then .dispatch jobs
      else
        match serial_step with
        | some s => .dispatch [⟨node_for_step_type s.step_type, s.id⟩]
        | none => .goto "TriageNode"

/-- The detail step created by `PlanRefineNode`
(`graph/nodes.py` lines 115-123) for the `i`-th identifier `cve_id` of
the discovery step `disc`. -/
def mkDetailStep (disc : Step) (i : Nat) (cve_id : String) : Step :=
  { id := "detail-" ++ disc.id ++ "-" ++ toString i
    step_type := "vuln_detail"
    title := "Analyze " ++ cve_id
    description :=
      "Fetch detailed information and impact analysis for " ++ cve_id
    target := some cve_id
    stage := disc.stage + 1
    depends_on := [disc.id] }

/-- The inner `for i, cve_id in enumerate(cve_ids)` loop of
`PlanRefineNode` (`graph/nodes.py` lines 109-124): skip an identifier
already targeted by an existing or newly created step, otherwise append
a fresh detail step. -/
def cveLoop (plan_steps : List Step) (disc : Step) :
    List String → Nat → List Step → List Step
  | [], _, new_steps => new_steps
  | cve_id :: rest, i, new_steps =>
    if (plan_steps ++ new_steps).any (fun s => s.target == some cve_id) then
      cveLoop plan_steps disc rest (i + 1) new_steps
    else
      cveLoop plan_steps disc rest (i + 1)
        (new_steps ++ [mkDetailStep disc i cve_id])

/-- The outer `for step in plan.steps` loop of `PlanRefineNode`
(`graph/nodes.py` lines 102-124): a step contributes only when it is a
discovery step whose result is a dict tagged `"type": "vuln_discovery"`. -/
def refineLoop (plan_steps : List Step) (step_results : Dict ResultPayload) :
    List Step → List Step → List Step
  | [], new_steps => new_steps
  | step :: rest, new_steps =>
    if step.step_type == "vuln_discovery" then
      match Dict.get? step_results step.id with
      | some (.dict rtype cve_ids) =>
        if rtype == some "vuln_discovery" then
          refineLoop plan_steps step_results rest
            (cveLoop plan_steps step cve_ids 0 new_steps)
        else
          refineLoop plan_steps step_results rest new_steps
      | some .other => refineLoop plan_steps step_results rest new_steps
      | none => refineLoop plan_steps step_results rest new_steps
    else
      refineLoop plan_steps step_results rest new_steps

/-- `new_steps` as computed by one pass of `PlanRefineNode`. -/
def refineNewSteps (plan : Plan) (step_results : Dict ResultPayload) :
    List Step :=
  refineLoop plan.steps step_results plan.steps []

/-- `PlanRefineNode` (`graph/nodes.py` lines 89-134): returns the plan
carried by the updated state together with the routing target (always
the scheduler). `plan.steps.extend(new_steps)` is append. -/
def PlanRefineNode (plan : Option Plan) (step_results : Dict ResultPayload) :
    Option Plan × String :=
  match plan with
  | none => (none, "WorkerTeamNode")
  | some plan =>
    if plan.steps.isEmpty then (some plan, "WorkerTeamNode")
    else
      (some { plan with
                steps := plan.steps ++ refineNewSteps plan step_results },
       "WorkerTeamNode")

/-- Whether some step of `l` targets the identifier `cve` — the
duplicate check `any(s.target == cve_id for s in plan.steps + new_steps)`
of `PlanRefineNode` (`graph/nodes.py` line 112). -/
def targetsCve (l : List Step) (cve : String) : Bool :=
  l.any (fun s => s.target == some cve)

/-- Number of steps of `l` whose target is the identifier `cve`. -/
def countTarget (l : List Step) (cve : String) : Nat :=
  (l.filter (fun s => s.target == some cve)).length

/-- The identifier list `PlanRefineNode` extracts from a step
(`graph/nodes.py` lines 103-106): `some cve_ids` exactly when the step
is a discovery step whose result is a dict tagged
`"type": "vuln_discovery"`. -/
def discCves (r : Dict ResultPayload) (s : Step) : Option (List String) :=
  if s.step_type == "vuln_discovery" then
    match Dict.get? r s.id with
    | some (.dict rtype cve_ids) =>
      if rtype == some "vuln_discovery" then some cve_ids else none
    | some .other => none
    | none => none
  else none

/-- A chat message as far as the nodes inspect one: role, content and
optional name. -/
structure Msg where
  role : String
  content : String
  name : Option String
deriving Repr, DecidableEq

/-- The `SystemMessage` appended on plan rejection
(`graph/nodes.py` line 263). -/
def userFeedbackMsg (comment : String) : Msg :=
  ⟨"system", "User feedback: " ++ comment, some "UserFeedback"⟩

/-- The payload of the `interrupt(...)` call of `UserFeedbackNode`
(`graph/nodes.py` lines 240-244). -/
structure InterruptPayload where
  ptype : String
  plan : Plan
  run_id : Option String
deriving Repr, DecidableEq

/-- The suspension payload issued by `UserFeedbackNode` when it holds a
plan (`graph/nodes.py` lines 240-244). -/
def userFeedbackInterrupt (plan : Plan) (run_id : Option String) :
    InterruptPayload :=
  ⟨"plan_approval", plan, run_id⟩

/-- The resume value delivered to `UserFeedbackNode`: a dict expected
to look like `{"approved": bool, "comment": str}`; an absent key is
`none` (`feedback.get("approved", False)` / `feedback.get("comment")`,
lines 247-248). -/
structure Feedback where
  approved : Option Bool
  comment : Option String
deriving Repr, DecidableEq

/-- Python truthiness of an optional string (`if comment:` on
`graph/nodes.py` line 262): missing and empty are falsy. -/
def optStrTruthy : Option String → Bool
  | some s => s ≠ ""
  | none => false

/-- The partial state update returned by `UserFeedbackNode`; a `none`
field is absent from the update dict. -/
structure UFUpdate where
  plan_review_status : Option String := none
  plan_review_comment : Option (Option String) := none
  status : Option String := none
  messages : Option (List Msg) := none
deriving Repr, DecidableEq

/-- `UserFeedbackNode` after resumption (`graph/nodes.py` lines
228-272): the update together with the routing target. -/
def UserFeedbackNode (plan : Option Plan) (messages : List Msg)
    (feedback : Feedback) : UFUpdate × String :=
  match plan with
  | none => ({}, "PlannerNode")
  | some _ =>
    let approved := feedback.approved.getD false
    if approved then
      ({ plan_review_status := some "approved"
         plan_review_comment := some feedback.comment
         status := some "plan_approved" },
       "WorkerTeamNode")
    else
      let messages :=
        if optStrTruthy feedback.comment then
          messages ++ [userFeedbackMsg (feedback.comment.getD "")]
        else messages
      ({ plan_review_status := some "rejected"
         status := some "plan_rejected"
         messages := some messages },
       "PlannerNode")

/-- `Settings.max_plan_iterations` default (`settings.py` line 11). -/
def maxPlanIterations : Nat := 3

/-- The fields of `NodeState` (`graph/state.py`) that `PlannerNode`
and `preserve_state_meta_fields` read. -/
structure PlannerState where
  user_input : String
  run_id : Option String
  label : String
  status : String
  goto : Option String
  vulns : Option (List String)
  plan_iterations : Nat
  plan : Option Plan
  plan_review_status : Option String
  plan_review_comment : Option String
  execution_start_time : Option Nat
  final_report : String
  messages : List Msg
deriving Repr, DecidableEq

/-- The dict built by `preserve_state_meta_fields`
(`graph/state.py` lines 28-48). -/
structure MetaFields where
  user_input : String
  run_id : Option String
  label : String
  status : String
  goto : Option String
  vulns : Option (List String)
  plan_iterations : Nat
  plan_review_status : Option String
  plan_review_comment : Option String
  execution_start_time : Option Nat
  final_report : String
deriving Repr, DecidableEq

/-- `preserve_state_meta_fields` (`graph/state.py` lines 28-48):
copies the meta fields of the state unchanged. -/
def preserve_state_meta_fields (s : PlannerState) : MetaFields :=
  ⟨s.user_input, s.run_id, s.label, s.status, s.goto, s.vulns,
   s.plan_iterations, s.plan_review_status, s.plan_review_comment,
   s.execution_start_time, s.final_report⟩

/-- The update dict returned by the main branch of `PlannerNode`
(`graph/nodes.py` lines 218-226). -/
structure PlannerUpdate where
  plan_iterations : Nat
  plan : Option Plan
  plan_review_status : Option String
  plan_review_comment : Option String
deriving Repr, DecidableEq

/-- A `PlannerNode` outcome: the early iteration-cap exit carrying the
preserved meta fields, a failure of the `assert` on non-empty messages,
or the ordinary update. -/
inductive PlannerDecision where
  | metaRoute (m : MetaFields) (goto : String)
  | assertFailure
  | update (u : PlannerUpdate) (goto : String)
deriving Repr, DecidableEq

/-- `PlannerNode` (`graph/nodes.py` lines 170-226). The reasoning
collaborator is abstracted by `llm_plan`, the value of
`parse_plan_from_llm(response.content)` for the response the model
would return; the iteration-cap branch exits before it is consulted. -/
def PlannerNode (st : PlannerState) (llm_plan : Option Plan) :
    PlannerDecision :=
  let plan_iterations := if st.plan_iterations ≠ 0 then st.plan_iterations else 0
  if plan_iterations ≥ maxPlanIterations then
    .metaRoute (preserve_state_meta_fields st) "ReporterNode"
  else if st.messages.isEmpty then .assertFailure
  else
    let plan_iterations := plan_iterations + 1
    let plan := llm_plan
    let p := match plan with
      | some p =>
        if p.has_enough_context then ("ReporterNode", (none : Option String))
        else if p.finish_plan then ("UserFeedbackNode", some "pending")
        else ("PlannerNode", st.plan_review_status)
      | none => ("PlannerNode", st.plan_review_status)
    .update
      ⟨plan_iterations, plan, p.2,
       if p.2 == some "pending" then none else st.plan_review_comment⟩
      p.1

/-! ## Theorems settling the claims -/

/-- C6: the `step_results` reducer (Python dict union) yields a map
whose key set is the union of the two key sets; a key bound only in one
map keeps that map's value, and a key bound in both takes the later
update `b`'s value, so updates on disjoint keys never lose or overwrite
each other's entries. -/
theorem step_results_reducer_union_overwrite
    (a b : Dict ResultPayload) (k : String) :
    (Dict.get? (Dict.union a b) k
      = match Dict.get? b k with
        | some v => some v
        | none => Dict.get? a k)
    ∧ Dict.hasKey (Dict.union a b) k
      = (Dict.hasKey a k || Dict.hasKey b k) := by
  constructor
  · rw [Dict.get?_union]
    cases hb : Dict.get? b k <;> simp [Option.orElse]
  · unfold Dict.hasKey
    rw [Dict.get?_union]
    cases hb : Dict.get? b k <;> cases ha : Dict.get? a k <;>
      simp [Option.orElse]

/-- C2: with a non-empty plan and no discovery result awaiting
refinement, the scheduler routes to the Aggregator (`TriageNode`) both
when every step id has a result (plan complete) and when some step is
pending but none is runnable (dependency deadlock: fail safe instead of
dispatching or hanging). -/
theorem worker_completion_and_deadlock_to_triage
    (p : Plan) (r : Dict ResultPayload)
    (h1 : p.steps ≠ [])
    (h2 : candidatesForRefine p r = []) :
    (pendingSteps p r = [] → WorkerTeamNode (some p) r = .goto "TriageNode")
    ∧ (pendingSteps p r ≠ [] → runnableSteps p r = [] →
        WorkerTeamNode (some p) r = .goto "TriageNode") := by
  have e1 : p.steps.isEmpty = false := by
    simp [List.isEmpty_iff, h1]
  have e2 : (candidatesForRefine p r).isEmpty = true := by
    simp [List.isEmpty_iff, h2]
  constructor
  · intro hp
    simp [WorkerTeamNode, e1, e2, hp]
  · intro hp hr
    have e3 : (pendingSteps p r).isEmpty = false := by
      simp [List.isEmpty_iff, hp]
    simp [WorkerTeamNode, e1, e2, e3, hr]

/-- C2 witness: on a one-step plan whose step already has a result the
scheduler routes to `TriageNode`. -/
theorem worker_completion_and_deadlock_to_triage_witness :
    WorkerTeamNode
      (some ⟨[⟨"a1", "asset_analysis", "t", "d", none, 0, []⟩], false, true⟩)
      [("a1", ResultPayload.other)] = .goto "TriageNode" :=
  (worker_completion_and_deadlock_to_triage _ _ (by decide) (by decide)).1
    (by decide)

/-- C3: with a non-empty plan, if some discovery step has a result and
no step of the plan depends on its id, the scheduler routes to the Plan
Refiner (`PlanRefineNode`) — in particular it neither dispatches,
computes pending/runnable work, nor routes to the Aggregator in this
invocation. -/
theorem worker_routes_to_refiner_first
    (p : Plan) (r : Dict ResultPayload)
    (h1 : p.steps ≠ [])
    (s : Step) (hs : s ∈ p.steps)
    (hk : s.step_type = "vuln_discovery")
    (hr : Dict.hasKey r s.id = true)
    (hnd : ∀ t ∈ p.steps, s.id ∉ t.depends_on) :
    WorkerTeamNode (some p) r = .goto "PlanRefineNode" := by
  have e1 : p.steps.isEmpty = false := by
    simp [List.isEmpty_iff, h1]
  have hmem : s ∈ candidatesForRefine p r := by
    unfold candidatesForRefine
    rw [List.mem_filter]
    refine ⟨hs, ?_⟩
    simp only [hk, hr, Bool.and_eq_true, beq_self_eq_true, true_and,
      Bool.not_eq_true']
    rw [List.any_eq_false]
    intro t ht
    simpa using hnd t ht
  have e2 : (candidatesForRefine p r).isEmpty = false := by
    cases hcf : candidatesForRefine p r with
    | nil => rw [hcf] at hmem; cases hmem
    | cons a l => simp
  simp [WorkerTeamNode, e1, e2]

/-- C3 witness: a finished, un-depended-on discovery step sends the
scheduler to `PlanRefineNode`. -/
theorem worker_routes_to_refiner_first_witness :
    WorkerTeamNode
      (some ⟨[⟨"d1", "vuln_discovery", "t", "d", none, 0, []⟩], false, true⟩)
      [("d1", ResultPayload.other)] = .goto "PlanRefineNode" :=
  worker_routes_to_refiner_first _ _ (by decide)
    ⟨"d1", "vuln_discovery", "t", "d", none, 0, []⟩
    (by simp) (by decide) (by decide) (by decide)

/-- Characterization of the dispatch loop: the jobs accumulate a
`Send` per parallel-policy step, in order, and the remembered serial
step is the first serial-policy step encountered. -/
theorem dispatchLoop_eq (l : List Step) (jobs : List Send)
    (serial : Option Step) :
    dispatchLoop l jobs serial
      = (jobs ++ (l.filter (fun s => stepParallel s.step_type)).map
           (fun s => ⟨node_for_step_type s.step_type, s.id⟩),
         serial.orElse
           (fun _ => (l.filter (fun s => !stepParallel s.step_type)).head?)) := by
  induction l generalizing jobs serial with
  | nil =>
    cases serial <;> simp [dispatchLoop, Option.orElse]
  | cons s rest ih =>
    unfold dispatchLoop
    cases hp : stepParallel s.step_type <;>
      cases serial <;>
        simp [List.filter_cons, hp, ih, Option.orElse]

/-- C1 counterexample: for the plan with parallel-policy step `a1`
(asset_analysis) and serial-policy step `b1` (vuln_discovery), both
runnable at the minimum stage 0 with empty `step_results` and no
refinement candidate, the scheduler dispatches only the parallel job
for `a1`: no payload for the serial step `b1` is part of this
invocation, contradicting the claim that one serial step is dispatched
in the same invocation. -/
theorem worker_mixed_stage_counterexample :
    (([⟨"a1", "asset_analysis", "t", "d", none, 0, []⟩,
       ⟨"b1", "vuln_discovery", "t", "d", none, 0, []⟩] : List Step) ≠ []
     ∧ candidatesForRefine
         ⟨[⟨"a1", "asset_analysis", "t", "d", none, 0, []⟩,
           ⟨"b1", "vuln_discovery", "t", "d", none, 0, []⟩], false, true⟩ [] = []
     ∧ runnableSteps
         ⟨[⟨"a1", "asset_analysis", "t", "d", none, 0, []⟩,
           ⟨"b1", "vuln_discovery", "t", "d", none, 0, []⟩], false, true⟩ [] ≠ [])
    ∧ (∃ s ∈ runnableAtStage
         ⟨[⟨"a1", "asset_analysis", "t", "d", none, 0, []⟩,
           ⟨"b1", "vuln_discovery", "t", "d", none, 0, []⟩], false, true⟩ [],
         s.id = "b1" ∧ stepParallel s.step_type = false)
    ∧ WorkerTeamNode
        (some ⟨[⟨"a1", "asset_analysis", "t", "d", none, 0, []⟩,
                ⟨"b1", "vuln_discovery", "t", "d", none, 0, []⟩], false, true⟩)
        [] = .dispatch [⟨"AssetsAnalzerNode", "a1"⟩]
    ∧ ∀ j ∈ ([⟨"AssetsAnalzerNode", "a1"⟩] : List Send), j.step_id ≠ "b1" := by
  decide

/-- C1 amended: with a non-empty plan, no refinement candidate and a
non-empty runnable set, let `S` be the runnable steps at the minimum
stage. All parallel-policy steps of `S` are fanned out together in one
multi-dispatch with one payload per step id; only when `S` has no
parallel-policy step is exactly one serial-policy step (the first
encountered) dispatched alone, any serial work otherwise being deferred
to later scheduler invocations. -/
theorem worker_stage_dispatch
    (p : Plan) (r : Dict ResultPayload)
    (h1 : p.steps ≠ [])
    (h2 : candidatesForRefine p r = [])
    (h3 : runnableSteps p r ≠ []) :
    ((runnableAtStage p r).filter (fun s => stepParallel s.step_type) ≠ [] →
      WorkerTeamNode (some p) r
        = .dispatch
            (((runnableAtStage p r).filter
                (fun s => stepParallel s.step_type)).map
              (fun s => ⟨node_for_step_type s.step_type, s.id⟩)))
    ∧ ((runnableAtStage p r).filter (fun s => stepParallel s.step_type) = [] →
        ∀ s0, ((runnableAtStage p r).filter
            (fun s => !stepParallel s.step_type)).head? = some s0 →
          WorkerTeamNode (some p) r
            = .dispatch [⟨node_for_step_type s0.step_type, s0.id⟩]) := by
  have e1 : p.steps.isEmpty = false := by
    simp [List.isEmpty_iff, h1]
  have e2 : (candidatesForRefine p r).isEmpty = true := by
    simp [List.isEmpty_iff, h2]
  have e4 : (runnableSteps p r).isEmpty = false := by
    simp [List.isEmpty_iff, h3]
  have e3 : (pendingSteps p r).isEmpty = false := by
    rcases hc : pendingSteps p r with _ | ⟨a, l⟩
    · exact absurd (by simp [runnableSteps, hc]) h3
    · simp
  constructor
  · intro hpar
    simp only [WorkerTeamNode, e1, e2, e3, e4, Bool.not_false,
      Bool.false_eq_true, if_false, if_true, dispatchLoop_eq,
      List.nil_append, Option.orElse]
    have : (((runnableAtStage p r).filter
        (fun s => stepParallel s.step_type)).map
          (fun s => (⟨node_for_step_type s.step_type, s.id⟩ : Send))) ≠ [] := by
      simp [hpar]
    simp [List.isEmpty_iff, this]
  · intro hpar s0 hs0
    simp only [WorkerTeamNode, e1, e2, e3, e4, Bool.not_false,
      Bool.false_eq_true, if_false, if_true, dispatchLoop_eq,
      List.nil_append, Option.orElse]
    simp [List.isEmpty_iff, hpar, hs0]

/-- C1 amended witness: two parallel-policy asset steps at stage 0 are
fanned out together in a single two-payload dispatch. -/
theorem worker_stage_dispatch_witness :
    WorkerTeamNode
      (some ⟨[⟨"a1", "asset_analysis", "t", "d", none, 0, []⟩,
              ⟨"a2", "asset_analysis", "t", "d", none, 0, []⟩], false, true⟩)
      []
      = .dispatch [⟨"AssetsAnalzerNode", "a1"⟩, ⟨"AssetsAnalzerNode", "a2"⟩] := by
  have h := (worker_stage_dispatch
    ⟨[⟨"a1", "asset_analysis", "t", "d", none, 0, []⟩,
      ⟨"a2", "asset_analysis", "t", "d", none, 0, []⟩], false, true⟩
    [] (by decide) (by decide) (by decide)).1 (by decide)
  simpa using h

/-- C9 counterexample: with a missing plan the scheduler routes to
`PlannerNode`, not to the Aggregator (`TriageNode`) as the claim
states. -/
theorem worker_missing_plan_counterexample :
    WorkerTeamNode none [] = .goto "PlannerNode"
    ∧ WorkerTeamNode none [] ≠ .goto "TriageNode" := by
  decide

/-- C9 amended: when the state's plan is missing or has an empty step
list, the scheduler logs the violation and routes back to the Planner
(`PlannerNode`). -/
theorem worker_missing_plan_to_planner
    (plan : Option Plan) (r : Dict ResultPayload)
    (h : plan = none ∨ ∃ p, plan = some p ∧ p.steps = []) :
    WorkerTeamNode plan r = .goto "PlannerNode" := by
  rcases h with h | ⟨p, hp, hsteps⟩
  · subst h; rfl
  · subst hp
    simp [WorkerTeamNode, hsteps]

/-- C9 amended witness: the missing-plan case routes to `PlannerNode`. -/
theorem worker_missing_plan_to_planner_witness :
    WorkerTeamNode none [] = .goto "PlannerNode" :=
  worker_missing_plan_to_planner none [] (Or.inl rfl)

/-- C8: once `plan_iterations` has reached `max_plan_iterations`
(default 3), `PlannerNode` routes to `ReporterNode` carrying the
preserved meta fields of the existing state — for every possible
reasoning-collaborator outcome, so the collaborator is never consulted
and no further planning iteration happens (`plan_iterations` is left
unchanged by the preserved update). -/
theorem planner_iteration_cap_routes_to_reporter
    (st : PlannerState) (llm_plan : Option Plan)
    (h : maxPlanIterations ≤ st.plan_iterations) :
    PlannerNode st llm_plan
      = .metaRoute (preserve_state_meta_fields st) "ReporterNode"
    ∧ (preserve_state_meta_fields st).plan_iterations = st.plan_iterations := by
  have hne : st.plan_iterations ≠ 0 := by
    intro h0
    rw [h0] at h
    exact absurd h (by decide)
  exact ⟨by simp [PlannerNode, hne, h], rfl⟩

/-- C8 witness: a state at the default cap of 3 iterations routes to
`ReporterNode` with its meta fields preserved. -/
theorem planner_iteration_cap_routes_to_reporter_witness :
    PlannerNode
      ⟨"u", none, "l", "s", none, none, 3, none, none, none, none, "", []⟩
      none
      = .metaRoute
          ⟨"u", none, "l", "s", none, none, 3, none, none, none, ""⟩
          "ReporterNode" :=
  (planner_iteration_cap_routes_to_reporter
    ⟨"u", none, "l", "s", none, none, 3, none, none, none, none, "", []⟩
    none (by decide)).1

/-- C7: holding a plan, the Approval node suspends with the payload
`{type: "plan_approval", plan, run_id}`; resuming with `approved=true`
routes to the Scheduler with `plan_review_status="approved"`, and
resuming with `approved=false` appends the comment (when it is a
non-empty string) to the message history and routes back to the Planner
with `plan_review_status="rejected"`. -/
theorem user_feedback_approval_protocol
    (p : Plan) (run_id : Option String) (msgs : List Msg) (fb : Feedback) :
    userFeedbackInterrupt p run_id = ⟨"plan_approval", p, run_id⟩
    ∧ (fb.approved = some true →
        UserFeedbackNode (some p) msgs fb
          = ({ plan_review_status := some "approved"
               plan_review_comment := some fb.comment
               status := some "plan_approved" },
             "WorkerTeamNode"))
    ∧ (fb.approved = some false →
        UserFeedbackNode (some p) msgs fb
          = ({ plan_review_status := some "rejected"
               status := some "plan_rejected"
               messages := some (if optStrTruthy fb.comment then
                   msgs ++ [userFeedbackMsg (fb.comment.getD "")]
                 else msgs) },
             "PlannerNode")) := by
  refine ⟨rfl, ?_, ?_⟩
  · intro ha
    simp [UserFeedbackNode, ha]
  · intro ha
    simp [UserFeedbackNode, ha]

/-- C7 witness: an explicit approval routes a concrete plan to the
Scheduler with `plan_review_status="approved"`. -/
theorem user_feedback_approval_protocol_witness :
    UserFeedbackNode
      (some ⟨[⟨"a1", "asset_analysis", "t", "d", none, 0, []⟩], false, true⟩)
      [] ⟨some true, some "ok"⟩
      = ({ plan_review_status := some "approved"
           plan_review_comment := some (some "ok")
           status := some "plan_approved" },
         "WorkerTeamNode") :=
  (user_feedback_approval_protocol
    ⟨[⟨"a1", "asset_analysis", "t", "d", none, 0, []⟩], false, true⟩
    none [] ⟨some true, some "ok"⟩).2.1 rfl

/-- C10: a resume value without an `approved` key behaves exactly like
an explicit rejection — same decision as `approved=false`, with
`plan_review_status="rejected"` and a route back to the Planner — and
the run proceeds to the Scheduler iff the resume value explicitly
carries `approved=true`. -/
theorem user_feedback_missing_approved_defaults_to_rejection
    (p : Plan) (msgs : List Msg) (fb : Feedback)
    (h : fb.approved = none) :
    UserFeedbackNode (some p) msgs fb
      = UserFeedbackNode (some p) msgs ⟨some false, fb.comment⟩
    ∧ (UserFeedbackNode (some p) msgs fb).1.plan_review_status
      = some "rejected"
    ∧ (UserFeedbackNode (some p) msgs fb).2 = "PlannerNode"
    ∧ ∀ fb2 : Feedback,
        ((UserFeedbackNode (some p) msgs fb2).2 = "WorkerTeamNode"
          ↔ fb2.approved = some true) := by
  refine ⟨by simp [UserFeedbackNode, h], by simp [UserFeedbackNode, h],
    by simp [UserFeedbackNode, h], ?_⟩
  intro fb2
  rcases hfa : fb2.approved with _ | b
  · simp [UserFeedbackNode, hfa]
  · cases b <;> simp [UserFeedbackNode, hfa]

/-- C10 witness: a concrete resume value lacking `approved` is routed
back to the Planner as a rejection. -/
theorem user_feedback_missing_approved_defaults_to_rejection_witness :
    (UserFeedbackNode
      (some ⟨[⟨"a1", "asset_analysis", "t", "d", none, 0, []⟩], false, true⟩)
      [] ⟨none, none⟩).2 = "PlannerNode" :=
  (user_feedback_missing_approved_defaults_to_rejection
    ⟨[⟨"a1", "asset_analysis", "t", "d", none, 0, []⟩], false, true⟩
    [] ⟨none, none⟩ rfl).2.2.1

/-! ### Plan Refiner lemmas -/

theorem targetsCve_append (a b : List Step) (cve : String) :
    targetsCve (a ++ b) cve = (targetsCve a cve || targetsCve b cve) := by
  simp [targetsCve, List.any_append]

theorem countTarget_append (a b : List Step) (cve : String) :
    countTarget (a ++ b) cve = countTarget a cve + countTarget b cve := by
  simp [countTarget, List.filter_append]

theorem countTarget_eq_zero (l : List Step) (cve : String) :
    countTarget l cve = 0 ↔ targetsCve l cve = false := by
  simp [countTarget, targetsCve, List.length_eq_zero, List.filter_eq_nil_iff,
    List.any_eq_false]

theorem countTarget_detail_singleton (disc : Step) (i : Nat) (x cve : String) :
    countTarget [mkDetailStep disc i x] cve = if x = cve then 1 else 0 := by
  by_cases h : x = cve
  · subst h; simp [countTarget, mkDetailStep]
  · simp [countTarget, mkDetailStep, h]

theorem cveLoop_extend (S : List Step) (disc : Step) :
    ∀ (cves : List String) (i : Nat) (acc : List Step),
      ∃ t, cveLoop S disc cves i acc = acc ++ t := by
  intro cves
  induction cves with
  | nil => exact fun i acc => ⟨[], by simp [cveLoop]⟩
  | cons x rest ih =>
    intro i acc
    unfold cveLoop
    cases hc : (S ++ acc).any (fun s => s.target == some x)
    · simp only [Bool.false_eq_true, if_false]
      rcases ih (i + 1) (acc ++ [mkDetailStep disc i x]) with ⟨t, ht⟩
      exact ⟨mkDetailStep disc i x :: t, by rw [ht, List.append_assoc]; rfl⟩
    · simp only [if_true]
      exact ih _ _

theorem targetsCve_cveLoop_mono (S : List Step) (disc : Step)
    (cves : List String) (i : Nat) (acc : List Step) (cve : String)
    (h : targetsCve (S ++ acc) cve = true) :
    targetsCve (S ++ cveLoop S disc cves i acc) cve = true := by
  rcases cveLoop_extend S disc cves i acc with ⟨t, ht⟩
  rw [ht, ← List.append_assoc, targetsCve_append, h, Bool.true_or]

theorem cveLoop_covers (S : List Step) (disc : Step) :
    ∀ (cves : List String) (i : Nat) (acc : List Step) (cve : String),
      cve ∈ cves →
      targetsCve (S ++ cveLoop S disc cves i acc) cve = true := by
  intro cves
  induction cves with
  | nil => intro i acc cve h; cases h
  | cons x rest ih =>
    intro i acc cve hmem
    unfold cveLoop
    cases hc : (S ++ acc).any (fun s => s.target == some x)
    · simp only [Bool.false_eq_true, if_false]
      rcases List.mem_cons.mp hmem with rfl | hr
      · apply targetsCve_cveLoop_mono
        rw [← List.append_assoc, targetsCve_append]
        have : targetsCve [mkDetailStep disc i cve] cve = true := by
          simp [targetsCve, mkDetailStep]
        rw [this, Bool.or_true]
      · exact ih _ _ _ hr
    · simp only [if_true]
      rcases List.mem_cons.mp hmem with rfl | hr
      · exact targetsCve_cveLoop_mono S disc rest (i + 1) acc cve hc
      · exact ih _ _ _ hr

theorem cveLoop_noop (S : List Step) (disc : Step) :
    ∀ (cves : List String) (i : Nat) (acc : List Step),
      (∀ cve ∈ cves, targetsCve (S ++ acc) cve = true) →
      cveLoop S disc cves i acc = acc := by
  intro cves
  induction cves with
  | nil => intro i acc _; rfl
  | cons x rest ih =>
    intro i acc h
    unfold cveLoop
    have hx : (S ++ acc).any (fun s => s.target == some x) = true :=
      h x (List.mem_cons_self x rest)
    simp only [hx, if_true]
    exact ih _ _ (fun cve hc => h cve (List.mem_cons_of_mem _ hc))

theorem cveLoop_mem (S : List Step) (disc : Step) :
    ∀ (cves : List String) (i : Nat) (acc : List Step) (t : Step),
      t ∈ cveLoop S disc cves i acc →
      t ∈ acc ∨ ∃ j x, x ∈ cves ∧ t = mkDetailStep disc j x := by
  intro cves
  induction cves with
  | nil => intro i acc t ht; exact Or.inl ht
  | cons x rest ih =>
    intro i acc t ht
    unfold cveLoop at ht
    cases hc : (S ++ acc).any (fun s => s.target == some x) <;>
      rw [hc] at ht
    · simp only [Bool.false_eq_true, if_false] at ht
      rcases ih _ _ _ ht with hacc | ⟨j, y, hy, rfl⟩
      · rcases List.mem_append.mp hacc with h1 | h2
        · exact Or.inl h1
        · have := List.mem_singleton.mp h2
          subst this
          exact Or.inr ⟨i, x, List.mem_cons_self x rest, rfl⟩
      · exact Or.inr ⟨j, y, List.mem_cons_of_mem _ hy, rfl⟩
    · simp only [if_true] at ht
      rcases ih _ _ _ ht with hacc | ⟨j, y, hy, rfl⟩
      · exact Or.inl hacc
      · exact Or.inr ⟨j, y, List.mem_cons_of_mem _ hy, rfl⟩

theorem cveLoop_count (S : List Step) (disc : Step) (cve : String) :
    ∀ (cves : List String) (i : Nat) (acc : List Step),
      countTarget acc cve ≤ 1 →
      (targetsCve S cve = true → countTarget acc cve = 0) →
      countTarget (cveLoop S disc cves i acc) cve ≤ 1
      ∧ (targetsCve S cve = true →
          countTarget (cveLoop S disc cves i acc) cve = 0) := by
  intro cves
  induction cves with
  | nil => intro i acc h1 h2; exact ⟨h1, h2⟩
  | cons x rest ih =>
    intro i acc h1 h2
    unfold cveLoop
    cases hc : (S ++ acc).any (fun s => s.target == some x)
    · simp only [Bool.false_eq_true, if_false]
      by_cases hx : x = cve
      · subst hx
        have hSA : targetsCve (S ++ acc) x = false := hc
        rw [targetsCve_append, Bool.or_eq_false_iff] at hSA
        have hA0 : countTarget acc x = 0 :=
          (countTarget_eq_zero acc x).mpr hSA.2
        have hacc1 : countTarget (acc ++ [mkDetailStep disc i x]) x = 1 := by
          rw [countTarget_append, hA0, countTarget_detail_singleton]
          simp
        refine ih _ _ (le_of_eq hacc1) ?_
        intro hS
        rw [hS] at hSA
        exact absurd hSA.1 (by simp)
      · have hsame : countTarget (acc ++ [mkDetailStep disc i x]) cve
            = countTarget acc cve := by
          rw [countTarget_append, countTarget_detail_singleton,
            if_neg hx, Nat.add_zero]
        exact ih _ _ (hsame ▸ h1) (fun hS => hsame ▸ h2 hS)
    · simp only [if_true]
      exact ih _ _ h1 h2

/-- One step of the outer refinement loop, phrased through `discCves`. -/
theorem refineLoop_cons_eq (S : List Step) (r : Dict ResultPayload)
    (s : Step) (rest acc : List Step) :
    refineLoop S r (s :: rest) acc
      = refineLoop S r rest
          (match discCves r s with
           | some cves => cveLoop S s cves 0 acc
           | none => acc) := by
  cases hd : (s.step_type == "vuln_discovery")
  · simp [refineLoop, discCves, hd]
  · cases hg : Dict.get? r s.id with
    | none => simp [refineLoop, discCves, hd, hg]
    | some v =>
      cases v with
      | dict rtype cve_ids =>
        cases hr : (rtype == some "vuln_discovery") <;>
          simp [refineLoop, discCves, hd, hg, hr]
      | other => simp [refineLoop, discCves, hd, hg]

theorem refineLoop_extend (S : List Step) (r : Dict ResultPayload) :
    ∀ (todo acc : List Step), ∃ t, refineLoop S r todo acc = acc ++ t := by
  intro todo
  induction todo with
  | nil => exact fun acc => ⟨[], by simp [refineLoop]⟩
  | cons s rest ih =>
    intro acc
    rw [refineLoop_cons_eq]
    cases hd : discCves r s with
    | none => simpa using ih acc
    | some cves =>
      simp only
      rcases cveLoop_extend S s cves 0 acc with ⟨t1, ht1⟩
      rcases ih (cveLoop S s cves 0 acc) with ⟨t2, ht2⟩
      exact ⟨t1 ++ t2, by rw [ht2, ht1, List.append_assoc]⟩

theorem targetsCve_refineLoop_mono (S : List Step) (r : Dict ResultPayload)
    (todo acc : List Step) (cve : String)
    (h : targetsCve (S ++ acc) cve = true) :
    targetsCve (S ++ refineLoop S r todo acc) cve = true := by
  rcases refineLoop_extend S r todo acc with ⟨t, ht⟩
  rw [ht, ← List.append_assoc, targetsCve_append, h, Bool.true_or]

theorem refineLoop_covers (S : List Step) (r : Dict ResultPayload) :
    ∀ (todo acc : List Step) (s : Step) (cves : List String) (cve : String),
      s ∈ todo → discCves r s = some cves → cve ∈ cves →
      targetsCve (S ++ refineLoop S r todo acc) cve = true := by
  intro todo
  induction todo with
  | nil => intro acc s cves cve hs; cases hs
  | cons s0 rest ih =>
    intro acc s cves cve hs hd hc
    rw [refineLoop_cons_eq]
    rcases List.mem_cons.mp hs with rfl | hrest
    · rw [hd]
      exact targetsCve_refineLoop_mono S r rest _ cve
        (cveLoop_covers S s cves 0 acc cve hc)
    · cases hd0 : discCves r s0 <;> exact ih _ s cves cve hrest hd hc

theorem refineLoop_noop (S : List Step) (r : Dict ResultPayload) :
    ∀ (todo acc : List Step),
      (∀ s ∈ todo, ∀ cves, discCves r s = some cves →
        ∀ cve ∈ cves, targetsCve (S ++ acc) cve = true) →
      refineLoop S r todo acc = acc := by
  intro todo
  induction todo with
  | nil => intro acc _; rfl
  | cons s0 rest ih =>
    intro acc h
    rw [refineLoop_cons_eq]
    cases hd0 : discCves r s0 with
    | none =>
      exact ih acc (fun s hs => h s (List.mem_cons_of_mem _ hs))
    | some cves =>
      simp only
      rw [cveLoop_noop S s0 cves 0 acc
        (h s0 (List.mem_cons_self s0 rest) cves hd0)]
      exact ih acc (fun s hs => h s (List.mem_cons_of_mem _ hs))

theorem refineLoop_mem (S : List Step) (r : Dict ResultPayload) :
    ∀ (todo acc : List Step) (t : Step),
      t ∈ refineLoop S r todo acc →
      t ∈ acc ∨ ∃ s ∈ todo, ∃ cves j x,
        discCves r s = some cves ∧ x ∈ cves ∧ t = mkDetailStep s j x := by
  intro todo
  induction todo with
  | nil => intro acc t ht; exact Or.inl ht
  | cons s0 rest ih =>
    intro acc t ht
    rw [refineLoop_cons_eq] at ht
    cases hd0 : discCves r s0 with
    | none =>
      rw [hd0] at ht
      rcases ih _ _ ht with hacc | ⟨s, hs, cves, j, x, hd, hx, rfl⟩
      · exact Or.inl hacc
      · exact Or.inr ⟨s, List.mem_cons_of_mem _ hs, cves, j, x, hd, hx, rfl⟩
    | some cves0 =>
      rw [hd0] at ht
      rcases ih _ _ ht with hacc | ⟨s, hs, cves, j, x, hd, hx, rfl⟩
      · rcases cveLoop_mem S s0 cves0 0 acc t hacc with h1 | ⟨j, x, hx, rfl⟩
        · exact Or.inl h1
        · exact Or.inr ⟨s0, List.mem_cons_self s0 rest, cves0, j, x, hd0, hx, rfl⟩
      · exact Or.inr ⟨s, List.mem_cons_of_mem _ hs, cves, j, x, hd, hx, rfl⟩

theorem refineLoop_count (S : List Step) (r : Dict ResultPayload)
    (cve : String) :
    ∀ (todo acc : List Step),
      countTarget acc cve ≤ 1 →
      (targetsCve S cve = true → countTarget acc cve = 0) →
      countTarget (refineLoop S r todo acc) cve ≤ 1
      ∧ (targetsCve S cve = true →
          countTarget (refineLoop S r todo acc) cve = 0) := by
  intro todo
  induction todo with
  | nil => intro acc h1 h2; exact ⟨h1, h2⟩
  | cons s0 rest ih =>
    intro acc h1 h2
    rw [refineLoop_cons_eq]
    cases hd0 : discCves r s0 with
    | none => exact ih acc h1 h2
    | some cves0 =>
      simp only
      have hcl := cveLoop_count S s0 cve cves0 0 acc h1 h2
      exact ih _ hcl.1 hcl.2

/-- C5: the Plan Refiner is idempotent — applying `PlanRefineNode` to
the plan produced by a first application, with the same `step_results`,
adds zero steps and leaves the step set identical. -/
theorem plan_refiner_idempotent (p : Plan) (r : Dict ResultPayload) :
    PlanRefineNode ((PlanRefineNode (some p) r).1) r
      = ((PlanRefineNode (some p) r).1, "WorkerTeamNode") := by
  by_cases hS : p.steps = []
  · simp [PlanRefineNode, hS]
  · have e1 : p.steps.isEmpty = false := by
      simp [List.isEmpty_iff, hS]
    have hfst : (PlanRefineNode (some p) r).1
        = some { p with steps := p.steps ++ refineNewSteps p r } := by
      simp [PlanRefineNode, e1]
    have hN2 : refineNewSteps { p with steps := p.steps ++ refineNewSteps p r } r
        = [] := by
      unfold refineNewSteps
      apply refineLoop_noop
      intro s hs cves hd cve hc
      rw [List.append_nil]
      rcases List.mem_append.mp hs with h1 | h2
      · exact refineLoop_covers p.steps r p.steps [] s cves cve h1 hd hc
      · rcases refineLoop_mem p.steps r p.steps [] s h2 with
          h3 | ⟨s', _, cves', j, x, _, _, rfl⟩
        · cases h3
        · exact absurd hd (by simp [discCves, mkDetailStep])
    have hne : p.steps ++ refineNewSteps p r ≠ [] := by
      intro h
      exact hS (List.append_eq_nil.mp h).1
    have e2 : (p.steps ++ refineNewSteps p r).isEmpty = false := by
      simp [List.isEmpty_iff, hne]
    rw [hfst]
    simp [PlanRefineNode, e2, hN2]

/-- C4 counterexample: for the one-step discovery plan `d1` whose
result dict carries the identifier list `["CVE-X"]` but no
`"type": "vuln_discovery"` entry, the Refiner appends no step at all,
although the claim demands one detail step per identifier. -/
theorem refiner_untyped_result_counterexample :
    Dict.get? ([("d1", ResultPayload.dict none ["CVE-X"])] : Dict ResultPayload)
        "d1" = some (.dict none ["CVE-X"])
    ∧ (⟨"d1", "vuln_discovery", "t", "d", none, 0, []⟩ : Step)
        ∈ (⟨[⟨"d1", "vuln_discovery", "t", "d", none, 0, []⟩], false,
            true⟩ : Plan).steps
    ∧ refineNewSteps
        ⟨[⟨"d1", "vuln_discovery", "t", "d", none, 0, []⟩], false, true⟩
        [("d1", ResultPayload.dict none ["CVE-X"])] = []
    ∧ (PlanRefineNode
        (some ⟨[⟨"d1", "vuln_discovery", "t", "d", none, 0, []⟩], false, true⟩)
        [("d1", ResultPayload.dict none ["CVE-X"])]).1
      = some ⟨[⟨"d1", "vuln_discovery", "t", "d", none, 0, []⟩], false, true⟩ := by
  decide

/-- C4 amended: for each discovery step whose `step_results` entry is a
dict tagged `"type": "vuln_discovery"` carrying identifiers `cve_ids`,
one pass of the Refiner appends exactly one new step per identifier not
already targeted — a `vuln_detail` step staged one wave after its
discovery step and depending exactly on it — appends none for an
identifier already targeted by an existing step, and routes back to the
scheduler in every case. -/
theorem refiner_detail_generation (p : Plan) (r : Dict ResultPayload)
    (s : Step) (cves : List String) (cve : String)
    (hs : s ∈ p.steps)
    (hwf : discCves r s = some cves)
    (hcve : cve ∈ cves) :
    (targetsCve p.steps cve = true →
      countTarget (refineNewSteps p r) cve = 0)
    ∧ (targetsCve p.steps cve = false →
        countTarget (refineNewSteps p r) cve = 1)
    ∧ (targetsCve p.steps cve = false →
        ∃ t ∈ refineNewSteps p r, ∃ s' ∈ p.steps, ∃ cves',
          discCves r s' = some cves' ∧ cve ∈ cves'
          ∧ t.step_type = "vuln_detail" ∧ t.target = some cve
          ∧ t.stage = s'.stage + 1 ∧ t.depends_on = [s'.id])
    ∧ (PlanRefineNode (some p) r).2 = "WorkerTeamNode" := by
  have hcount := refineLoop_count p.steps r cve p.steps []
    (by simp [countTarget]) (fun _ => by simp [countTarget])
  have hNtrue : targetsCve p.steps cve = false →
      targetsCve (refineNewSteps p r) cve = true := by
    intro hf
    have hcov := refineLoop_covers p.steps r p.steps [] s cves cve hs hwf hcve
    rw [targetsCve_append, hf, Bool.false_or] at hcov
    exact hcov
  refine ⟨hcount.2, ?_, ?_, ?_⟩
  · intro hf
    have hne : countTarget (refineNewSteps p r) cve ≠ 0 := by
      intro h0
      rw [countTarget_eq_zero] at h0
      rw [hNtrue hf] at h0
      cases h0
    exact Nat.le_antisymm hcount.1 (Nat.one_le_iff_ne_zero.mpr hne)
  · intro hf
    have hany := hNtrue hf
    unfold targetsCve at hany
    rw [List.any_eq_true] at hany
    rcases hany with ⟨t, htN, htg⟩
    have htg' : t.target = some cve := by
      exact eq_of_beq htg
    rcases refineLoop_mem p.steps r p.steps [] t htN with
      h3 | ⟨s', hs', cves', j, x, hd', hx', rfl⟩
    · cases h3
    · have hxcve : x = cve := by
        have : some x = some cve := htg'
        exact Option.some.inj this
      subst hxcve
      exact ⟨mkDetailStep s' j x, htN, s', hs', cves', hd', hx',
        rfl, rfl, rfl, rfl⟩
  · unfold PlanRefineNode
    split
    · rfl
    · split <;> rfl

/-- C4 amended witness: discovery step `d1` returning typed identifiers
`["X", "Y"]` causes exactly one appended step targeting `"X"`. -/
theorem refiner_detail_generation_witness :
    countTarget
      (refineNewSteps
        ⟨[⟨"d1", "vuln_discovery", "t", "d", none, 0, []⟩], false, true⟩
        [("d1", ResultPayload.dict (some "vuln_discovery") ["X", "Y"])])
      "X" = 1 :=
  (refiner_detail_generation _ _
    ⟨"d1", "vuln_discovery", "t", "d", none, 0, []⟩ ["X", "Y"] "X"
    (by decide) (by decide) (by decide)).2.1 (by decide)

end VulnGraph
